import Mathlib

/-!
Verification of the serial framing/decoding state machine of
`src/arduino/firmware/client.c` (the `loop` function and its globals).

The embedding is parametric in the LEDs-per-strip count `cap`
(`LED_COUNT_PER_STRIP`, which the firmware fixes to 150 and the spec calls
`stripCapacity`); every theorem below holds for all `cap`, in particular for
150.  Bytes are modelled as `Nat`; the transport is modelled by the list of
chunks successively returned by `Serial.readBytes` (each iteration of the
`while (Serial.available() > 0)` loop processes one chunk, and since
`bytesToRead = min(available, DATA_BLOCK_SIZE) >= 1` inside that loop, real
chunks are nonempty).  `FastLED.show()` and `Serial.write` are recorded in an
event trace.
-/

/-- RGB pixel, mirroring the `CRGB` values built by `client.c` line 75/81. -/
structure CRGB where
  red : Nat
  green : Nat
  blue : Nat
deriving Repr, DecidableEq

/-- Externally visible actions of one loop iteration: a `FastLED.show()`
call or a `Serial.write(value)` of one byte. -/
inductive SerialEvent where
  | fastledShow : SerialEvent
  | serialWrite (value : Nat) : SerialEvent
deriving Repr, DecidableEq

/-- Constant `LED_COUNT_PER_STRIP` of `client.c` (line 5). -/
def LED_COUNT_PER_STRIP : Nat := 150

/-- Constant `BYTES_PER_LED` of `client.c` (line 11). -/
def BYTES_PER_LED : Nat := 3

/-- Constant `DATA_BLOCK_SIZE` of `client.c` (line 9). -/
def DATA_BLOCK_SIZE : Nat := 64

/-- Constant `ACK_BYTE = 0xAA` of `client.c` (line 10). -/
def ACK_BYTE : Nat := 0xAA

/-- Constant `TOTAL_LED_COUNT = LED_COUNT_PER_STRIP * 2` of `client.c`
(line 6), with the strip capacity as a parameter. -/
def TOTAL_LED_COUNT (cap : Nat) : Nat := cap * 2

/-- Constant `NUMBER_OF_BYTES_TO_READ = TOTAL_LED_COUNT * BYTES_PER_LED` of
`client.c` (line 12): the byte count of one full dual-strip frame, called
`expectedBytesPerFrame` by the spec. -/
def NUMBER_OF_BYTES_TO_READ (cap : Nat) : Nat := TOTAL_LED_COUNT cap * BYTES_PER_LED

/-- The mutable globals of `client.c` (lines 15-21) together with the trace
of `FastLED.show()` and `Serial.write` calls performed so far. -/
structure ClientState where
  leds1 : List CRGB
  leds2 : List CRGB
  ledBuffer : List Nat
  ledIndex : Nat
  receivedBlocks : Nat
  totalBytesRead : Nat
  events : List SerialEvent
deriving Repr, DecidableEq

/-- State at power-on: C global arrays and counters are zero-initialized
(`client.c` lines 15-21). -/
def initialState (cap : Nat) : ClientState where
  leds1 := List.replicate cap (CRGB.mk 0 0 0)
  leds2 := List.replicate cap (CRGB.mk 0 0 0)
  ledBuffer := [0, 0, 0]
  ledIndex := 0
  receivedBlocks := 0
  totalBytesRead := 0
  events := []

/-- Body of the `for (int i = 0; i < bytesToRead; i++)` loop of `client.c`
(lines 62-85): stage the byte in `ledBuffer`, advance `ledIndex`, and when a
triplet completes route it to `leds1`/`leds2` from
`ledPosition = totalBytesRead / 3` (sampled before the increment), skipping
the write when `ledPosition >= TOTAL_LED_COUNT`; finally increment
`totalBytesRead`. -/
def processByte (cap : Nat) (s : ClientState) (b : Nat) : ClientState :=
  if s.ledIndex + 1 = 3 then
    if s.totalBytesRead / 3 < TOTAL_LED_COUNT cap then
      if s.totalBytesRead / 3 < cap then
        { s with ledBuffer := s.ledBuffer.set s.ledIndex b, ledIndex := 0,
                 leds1 := s.leds1.set (s.totalBytesRead / 3)
                   (CRGB.mk ((s.ledBuffer.set s.ledIndex b).getD 0 0)
                     ((s.ledBuffer.set s.ledIndex b).getD 1 0)
                     ((s.ledBuffer.set s.ledIndex b).getD 2 0)),
                 totalBytesRead := s.totalBytesRead + 1 }
      else
        { s with ledBuffer := s.ledBuffer.set s.ledIndex b, ledIndex := 0,
                 leds2 := s.leds2.set (s.totalBytesRead / 3 - cap)
                   (CRGB.mk ((s.ledBuffer.set s.ledIndex b).getD 0 0)
                     ((s.ledBuffer.set s.ledIndex b).getD 1 0)
                     ((s.ledBuffer.set s.ledIndex b).getD 2 0)),
                 totalBytesRead := s.totalBytesRead + 1 }
    else
      { s with ledBuffer := s.ledBuffer.set s.ledIndex b, ledIndex := 0,
               totalBytesRead := s.totalBytesRead + 1 }
  else
    { s with ledBuffer := s.ledBuffer.set s.ledIndex b, ledIndex := s.ledIndex + 1,
             totalBytesRead := s.totalBytesRead + 1 }

/-- Frame completion gate of `client.c` (lines 87-94): when
`totalBytesRead >= NUMBER_OF_BYTES_TO_READ`, call `FastLED.show()`, write
`ACK_BYTE`, and reset `receivedBlocks`, `totalBytesRead` and `ledIndex`. -/
def frameGate (cap : Nat) (s : ClientState) : ClientState :=
  if NUMBER_OF_BYTES_TO_READ cap ≤ s.totalBytesRead then
    { s with events := s.events ++ [SerialEvent.fastledShow, SerialEvent.serialWrite ACK_BYTE],
             receivedBlocks := 0,
             totalBytesRead := 0,
             ledIndex := 0 }
  else s

/-- One iteration of the `while (Serial.available() > 0)` loop of `client.c`
(lines 57-95): process the bytes of one `Serial.readBytes` chunk, then run
the frame completion gate once. -/
def processChunk (cap : Nat) (s : ClientState) (chunk : List Nat) : ClientState :=
  frameGate cap (chunk.foldl (processByte cap) s)

/-- Run of the firmware over a sequence of transport chunks. -/
def processChunks (cap : Nat) (s : ClientState) (chunks : List (List Nat)) : ClientState :=
  chunks.foldl (processChunk cap) s

/-- Modelled from the spec: the byte-at-a-time machine of spec section 4.4,
in which the frame completion gate is checked after every consumed byte
rather than once per transport chunk.  Used as the chunk-independent
reference machine for chunk-boundary invariance. -/
def stepSpec (cap : Nat) (s : ClientState) (b : Nat) : ClientState :=
  frameGate cap (processByte cap s b)

/-- Modelled from the spec: run of the byte-at-a-time gate machine over a
flat byte sequence. -/
def processBytesSpec (cap : Nat) (s : ClientState) (bytes : List Nat) : ClientState :=
  bytes.foldl (stepSpec cap) s

/-- A chunking is frame aligned, starting from `acc` bytes already consumed
in the current frame, when no chunk runs past the end of a frame: each chunk
keeps the in-frame byte count at most `n`, and the count resets exactly when
it reaches `n`. -/
def frameAligned (n : Nat) : Nat → List (List Nat) → Bool
  | _, [] => true
  | acc, c :: cs =>
      decide (acc + c.length ≤ n) &&
      frameAligned n (if acc + c.length = n then 0 else acc + c.length) cs

/-- Chronological trace of `k` frame completions: each appends one
`FastLED.show()` followed by one `Serial.write ACK_BYTE`. -/
def ackTrace : Nat → List SerialEvent
  | 0 => []
  | k + 1 => ackTrace k ++ [SerialEvent.fastledShow, SerialEvent.serialWrite ACK_BYTE]

/-- Count of `Serial.write` events in a trace. -/
def countWrites (l : List SerialEvent) : Nat :=
  (l.filter fun e => match e with
    | SerialEvent.serialWrite _ => true
    | SerialEvent.fastledShow => false).length

theorem processByte_totalBytesRead (cap : Nat) (s : ClientState) (b : Nat) :
    (processByte cap s b).totalBytesRead = s.totalBytesRead + 1 := by
  unfold processByte
  split <;> [skip; rfl]
  split <;> [skip; rfl]
  split <;> rfl

theorem processByte_events (cap : Nat) (s : ClientState) (b : Nat) :
    (processByte cap s b).events = s.events := by
  unfold processByte
  split <;> [skip; rfl]
  split <;> [skip; rfl]
  split <;> rfl

theorem foldl_processByte_totalBytesRead (cap : Nat) (bytes : List Nat) :
    ∀ s : ClientState,
      (bytes.foldl (processByte cap) s).totalBytesRead = s.totalBytesRead + bytes.length := by
  induction bytes with
  | nil => intro s; rfl
  | cons b rest ih =>
      intro s
      simp only [List.foldl_cons, List.length_cons, ih, processByte_totalBytesRead]
      omega

theorem foldl_processByte_events (cap : Nat) (bytes : List Nat) :
    ∀ s : ClientState,
      (bytes.foldl (processByte cap) s).events = s.events := by
  induction bytes with
  | nil => intro s; rfl
  | cons b rest ih =>
      intro s
      simp only [List.foldl_cons, ih, processByte_events]

theorem frameGate_of_lt (cap : Nat) (s : ClientState)
    (h : s.totalBytesRead < NUMBER_OF_BYTES_TO_READ cap) : frameGate cap s = s := by
  unfold frameGate
  rw [if_neg (by omega)]

theorem frameGate_of_ge (cap : Nat) (s : ClientState)
    (h : NUMBER_OF_BYTES_TO_READ cap ≤ s.totalBytesRead) :
    frameGate cap s =
      { s with events := s.events ++ [SerialEvent.fastledShow, SerialEvent.serialWrite ACK_BYTE],
               receivedBlocks := 0,
               totalBytesRead := 0,
               ledIndex := 0 } := by
  unfold frameGate
  rw [if_pos h]

theorem processChunk_totalBytesRead_le (cap : Nat) (s : ClientState) (c : List Nat) :
    (processChunk cap s c).totalBytesRead ≤ NUMBER_OF_BYTES_TO_READ cap := by
  unfold processChunk frameGate
  split
  · exact Nat.zero_le _
  · omega

theorem processChunks_totalBytesRead_le (cap : Nat) (chunks : List (List Nat)) :
    ∀ s : ClientState, s.totalBytesRead ≤ NUMBER_OF_BYTES_TO_READ cap →
      (processChunks cap s chunks).totalBytesRead ≤ NUMBER_OF_BYTES_TO_READ cap := by
  induction chunks with
  | nil => intro s hs; exact hs
  | cons c cs ih =>
      intro s hs
      exact ih (processChunk cap s c) (processChunk_totalBytesRead_le cap s c)

theorem processChunk_eq_spec (cap : Nat) (c : List Nat) :
    ∀ s : ClientState, c ≠ [] →
      s.totalBytesRead + c.length ≤ NUMBER_OF_BYTES_TO_READ cap →
      processChunk cap s c = processBytesSpec cap s c := by
  induction c with
  | nil => intro s hne _; exact absurd rfl hne
  | cons b rest ih =>
      intro s _ hle
      rcases eq_or_ne rest [] with hrest | hrest
      · subst hrest; rfl
      · have hlt : (processByte cap s b).totalBytesRead < NUMBER_OF_BYTES_TO_READ cap := by
          rw [processByte_totalBytesRead]
          have : 1 ≤ rest.length := List.length_pos.mpr hrest
          simp only [List.length_cons] at hle
          omega
        have hstep : stepSpec cap s b = processByte cap s b := frameGate_of_lt cap _ hlt
        have hrec : processChunk cap (processByte cap s b) rest =
            processBytesSpec cap (processByte cap s b) rest := by
          apply ih _ hrest
          rw [processByte_totalBytesRead]
          simp only [List.length_cons] at hle
          omega
        calc processChunk cap s (b :: rest)
            = processChunk cap (processByte cap s b) rest := rfl
          _ = processBytesSpec cap (processByte cap s b) rest := hrec
          _ = processBytesSpec cap (stepSpec cap s b) rest := by rw [hstep]
          _ = processBytesSpec cap s (b :: rest) := rfl

theorem processChunk_totalBytesRead (cap : Nat) (s : ClientState) (c : List Nat)
    (hle : s.totalBytesRead + c.length ≤ NUMBER_OF_BYTES_TO_READ cap) :
    (processChunk cap s c).totalBytesRead =
      if s.totalBytesRead + c.length = NUMBER_OF_BYTES_TO_READ cap then 0
      else s.totalBytesRead + c.length := by
  have h := foldl_processByte_totalBytesRead cap c s
  unfold processChunk frameGate
  by_cases hc : NUMBER_OF_BYTES_TO_READ cap ≤ (List.foldl (processByte cap) s c).totalBytesRead
  · rw [if_pos hc, if_pos (by omega)]
  · rw [if_neg hc, if_neg (by omega)]
    exact h

theorem aligned_run_eq_spec (cap : Nat) (chunks : List (List Nat)) :
    ∀ s : ClientState, (∀ c ∈ chunks, c ≠ []) →
      frameAligned (NUMBER_OF_BYTES_TO_READ cap) s.totalBytesRead chunks = true →
      processChunks cap s chunks = processBytesSpec cap s chunks.flatten := by
  induction chunks with
  | nil => intro s _ _; rfl
  | cons c cs ih =>
      intro s hne hal
      unfold frameAligned at hal
      rw [Bool.and_eq_true, decide_eq_true_eq] at hal
      obtain ⟨hle, hal⟩ := hal
      have hcne : c ≠ [] := hne c (by simp)
      have hchunk : processChunk cap s c = processBytesSpec cap s c :=
        processChunk_eq_spec cap c s hcne hle
      have hcount : (processChunk cap s c).totalBytesRead =
          if s.totalBytesRead + c.length = NUMBER_OF_BYTES_TO_READ cap then 0
          else s.totalBytesRead + c.length :=
        processChunk_totalBytesRead cap s c hle
      have hrec : processChunks cap (processChunk cap s c) cs =
          processBytesSpec cap (processChunk cap s c) cs.flatten := by
        apply ih _ (fun d hd => hne d (by simp [hd]))
        rw [hcount]
        exact hal
      calc processChunks cap s (c :: cs)
          = processChunks cap (processChunk cap s c) cs := rfl
        _ = processBytesSpec cap (processChunk cap s c) cs.flatten := hrec
        _ = processBytesSpec cap (processBytesSpec cap s c) cs.flatten := by rw [hchunk]
        _ = processBytesSpec cap s (c ++ cs.flatten) := by
            unfold processBytesSpec; rw [List.foldl_append]
        _ = processBytesSpec cap s (c :: cs).flatten := by rw [List.flatten_cons]

theorem processByte_notfull (cap : Nat) (s : ClientState) (b : Nat)
    (h : s.ledIndex + 1 ≠ 3) :
    processByte cap s b =
      { s with ledBuffer := s.ledBuffer.set s.ledIndex b, ledIndex := s.ledIndex + 1,
               totalBytesRead := s.totalBytesRead + 1 } := by
  unfold processByte
  rw [if_neg h]

theorem processByte_full_strip1 (cap : Nat) (s : ClientState) (b : Nat)
    (h : s.ledIndex = 2) (h1 : s.totalBytesRead / 3 < cap) :
    processByte cap s b =
      { s with ledBuffer := s.ledBuffer.set s.ledIndex b, ledIndex := 0,
               leds1 := s.leds1.set (s.totalBytesRead / 3)
                 (CRGB.mk ((s.ledBuffer.set s.ledIndex b).getD 0 0)
                   ((s.ledBuffer.set s.ledIndex b).getD 1 0)
                   ((s.ledBuffer.set s.ledIndex b).getD 2 0)),
               totalBytesRead := s.totalBytesRead + 1 } := by
  unfold processByte TOTAL_LED_COUNT
  rw [if_pos (by omega), if_pos (by omega), if_pos h1]

theorem processByte_full_strip2 (cap : Nat) (s : ClientState) (b : Nat)
    (h : s.ledIndex = 2) (h1 : cap ≤ s.totalBytesRead / 3)
    (h2 : s.totalBytesRead / 3 < TOTAL_LED_COUNT cap) :
    processByte cap s b =
      { s with ledBuffer := s.ledBuffer.set s.ledIndex b, ledIndex := 0,
               leds2 := s.leds2.set (s.totalBytesRead / 3 - cap)
                 (CRGB.mk ((s.ledBuffer.set s.ledIndex b).getD 0 0)
                   ((s.ledBuffer.set s.ledIndex b).getD 1 0)
                   ((s.ledBuffer.set s.ledIndex b).getD 2 0)),
               totalBytesRead := s.totalBytesRead + 1 } := by
  unfold processByte
  rw [if_pos (by omega), if_pos h2, if_neg (by omega)]

theorem processByte_full_discard (cap : Nat) (s : ClientState) (b : Nat)
    (h : s.ledIndex + 1 = 3) (h1 : TOTAL_LED_COUNT cap ≤ s.totalBytesRead / 3) :
    processByte cap s b =
      { s with ledBuffer := s.ledBuffer.set s.ledIndex b, ledIndex := 0,
               totalBytesRead := s.totalBytesRead + 1 } := by
  unfold processByte
  rw [if_pos h, if_neg (by omega)]

theorem processByte_leds_of_overrun (cap : Nat) (s : ClientState) (b : Nat)
    (h1 : TOTAL_LED_COUNT cap ≤ s.totalBytesRead / 3) :
    (processByte cap s b).leds1 = s.leds1 ∧ (processByte cap s b).leds2 = s.leds2 := by
  by_cases h : s.ledIndex + 1 = 3
  · rw [processByte_full_discard cap s b h h1]
    exact ⟨rfl, rfl⟩
  · rw [processByte_notfull cap s b h]
    exact ⟨rfl, rfl⟩

theorem foldl_processByte_excess (cap : Nat) (bytes : List Nat) :
    ∀ s : ClientState, NUMBER_OF_BYTES_TO_READ cap ≤ s.totalBytesRead →
      (bytes.foldl (processByte cap) s).leds1 = s.leds1 ∧
      (bytes.foldl (processByte cap) s).leds2 = s.leds2 := by
  induction bytes with
  | nil => intro s _; exact ⟨rfl, rfl⟩
  | cons b rest ih =>
      intro s hs
      have hpos : TOTAL_LED_COUNT cap ≤ s.totalBytesRead / 3 := by
        have := Nat.div_le_div_right (c := 3) hs
        unfold NUMBER_OF_BYTES_TO_READ BYTES_PER_LED at this
        rwa [Nat.mul_div_cancel _ (by omega)] at this
      have hover := processByte_leds_of_overrun cap s b hpos
      have hnext : NUMBER_OF_BYTES_TO_READ cap ≤ (processByte cap s b).totalBytesRead := by
        rw [processByte_totalBytesRead]; omega
      have hrec := ih (processByte cap s b) hnext
      simp only [List.foldl_cons]
      exact ⟨hrec.1.trans hover.1, hrec.2.trans hover.2⟩

theorem processByte_ledIndex_lt (cap : Nat) (s : ClientState) (b : Nat)
    (hs : s.ledIndex < 3) : (processByte cap s b).ledIndex < 3 := by
  unfold processByte
  split
  · split
    · split <;> simp
    · simp
  · rename_i h
    dsimp only
    omega

theorem foldl_processByte_ledIndex_lt (cap : Nat) (bytes : List Nat) :
    ∀ s : ClientState, s.ledIndex < 3 →
      (bytes.foldl (processByte cap) s).ledIndex < 3 := by
  induction bytes with
  | nil => intro s hs; exact hs
  | cons b rest ih =>
      intro s hs
      exact ih (processByte cap s b) (processByte_ledIndex_lt cap s b hs)

theorem frameGate_ledIndex_lt (cap : Nat) (s : ClientState) (h : s.ledIndex < 3) :
    (frameGate cap s).ledIndex < 3 := by
  unfold frameGate
  split
  · simp
  · exact h

theorem processChunks_ledIndex_lt (cap : Nat) (chunks : List (List Nat)) :
    ∀ s : ClientState, s.ledIndex < 3 →
      (processChunks cap s chunks).ledIndex < 3 := by
  induction chunks with
  | nil => intro s hs; exact hs
  | cons c cs ih =>
      intro s hs
      exact ih _ (frameGate_ledIndex_lt cap _ (foldl_processByte_ledIndex_lt cap c s hs))

theorem countWrites_append (l1 l2 : List SerialEvent) :
    countWrites (l1 ++ l2) = countWrites l1 + countWrites l2 := by
  unfold countWrites
  rw [List.filter_append, List.length_append]

theorem countWrites_gatePair :
    countWrites [SerialEvent.fastledShow, SerialEvent.serialWrite ACK_BYTE] = 1 := rfl

theorem processChunk_events (cap : Nat) (s : ClientState) (c : List Nat) :
    (processChunk cap s c).events = s.events ∨
    (processChunk cap s c).events =
      s.events ++ [SerialEvent.fastledShow, SerialEvent.serialWrite ACK_BYTE] := by
  unfold processChunk frameGate
  split
  · right
    dsimp only
    rw [foldl_processByte_events]
  · left
    rw [foldl_processByte_events]

theorem processChunks_events_ackTrace (cap : Nat) (chunks : List (List Nat)) :
    ∀ s : ClientState, (∃ k, s.events = ackTrace k) →
      ∃ k, (processChunks cap s chunks).events = ackTrace k := by
  induction chunks with
  | nil => intro s hs; exact hs
  | cons c cs ih =>
      intro s hs
      apply ih
      obtain ⟨k, hk⟩ := hs
      rcases processChunk_events cap s c with h | h
      · exact ⟨k, h.trans hk⟩
      · refine ⟨k + 1, ?_⟩
        rw [h, hk]
        rfl

theorem mem_ackTrace_write (k : Nat) (v : Nat) :
    SerialEvent.serialWrite v ∈ ackTrace k → v = ACK_BYTE := by
  induction k with
  | zero => intro h; exact absurd h (List.not_mem_nil _)
  | succ k ih =>
      intro h
      unfold ackTrace at h
      rw [List.mem_append] at h
      rcases h with h | h
      · exact ih h
      · rcases List.mem_cons.mp h with h | h
        · exact absurd h (by simp)
        · rcases List.mem_cons.mp h with h | h
          · injection h with hv
          · exact absurd h (List.not_mem_nil _)

theorem processChunks_write_bound (cap : Nat) (chunks : List (List Nat)) :
    ∀ s : ClientState,
      countWrites (processChunks cap s chunks).events * NUMBER_OF_BYTES_TO_READ cap +
          (processChunks cap s chunks).totalBytesRead ≤
        countWrites s.events * NUMBER_OF_BYTES_TO_READ cap + s.totalBytesRead +
          chunks.flatten.length := by
  induction chunks with
  | nil => intro s; simp [processChunks]
  | cons c cs ih =>
      intro s
      have hrec := ih (processChunk cap s c)
      have hcount := foldl_processByte_totalBytesRead cap c s
      have hev := foldl_processByte_events cap c s
      have hchunk :
          countWrites (processChunk cap s c).events * NUMBER_OF_BYTES_TO_READ cap +
            (processChunk cap s c).totalBytesRead ≤
          countWrites s.events * NUMBER_OF_BYTES_TO_READ cap + s.totalBytesRead + c.length := by
        unfold processChunk frameGate
        split
        · rename_i hge
          dsimp only
          rw [hev, countWrites_append, countWrites_gatePair, Nat.add_mul, one_mul]
          omega
        · rw [hev, hcount]
          omega
      calc countWrites (processChunks cap (processChunk cap s c) cs).events *
              NUMBER_OF_BYTES_TO_READ cap +
            (processChunks cap (processChunk cap s c) cs).totalBytesRead
          ≤ countWrites (processChunk cap s c).events * NUMBER_OF_BYTES_TO_READ cap +
              (processChunk cap s c).totalBytesRead + cs.flatten.length := hrec
        _ ≤ countWrites s.events * NUMBER_OF_BYTES_TO_READ cap + s.totalBytesRead +
              c.length + cs.flatten.length := by omega
        _ = countWrites s.events * NUMBER_OF_BYTES_TO_READ cap + s.totalBytesRead +
              (c :: cs).flatten.length := by
            rw [List.flatten_cons, List.length_append]
            omega

theorem spec_machine_counts (cap : Nat) (bytes : List Nat)
    (hN : 0 < NUMBER_OF_BYTES_TO_READ cap) :
    ∀ s : ClientState, s.totalBytesRead < NUMBER_OF_BYTES_TO_READ cap →
      countWrites (processBytesSpec cap s bytes).events =
        countWrites s.events +
          (s.totalBytesRead + bytes.length) / NUMBER_OF_BYTES_TO_READ cap ∧
      (processBytesSpec cap s bytes).totalBytesRead =
        (s.totalBytesRead + bytes.length) % NUMBER_OF_BYTES_TO_READ cap := by
  induction bytes with
  | nil =>
      intro s hs
      refine ⟨?_, ?_⟩
      · rw [List.length_nil, Nat.add_zero, Nat.div_eq_of_lt hs, Nat.add_zero]
        rfl
      · rw [List.length_nil, Nat.add_zero, Nat.mod_eq_of_lt hs]
        rfl
  | cons b rest ih =>
      intro s hs
      have hev1 := processByte_events cap s b
      have ht1 := processByte_totalBytesRead cap s b
      by_cases hfire : s.totalBytesRead + 1 = NUMBER_OF_BYTES_TO_READ cap
      · have hgate := frameGate_of_ge cap (processByte cap s b) (by omega)
        have he : (stepSpec cap s b).events =
            s.events ++ [SerialEvent.fastledShow, SerialEvent.serialWrite ACK_BYTE] := by
          unfold stepSpec
          rw [hgate]
          dsimp only
          rw [hev1]
        have ht : (stepSpec cap s b).totalBytesRead = 0 := by
          unfold stepSpec
          rw [hgate]
        obtain ⟨ihc, ihm⟩ := ih (stepSpec cap s b) (by rw [ht]; exact hN)
        have harith : s.totalBytesRead + (b :: rest).length =
            rest.length + NUMBER_OF_BYTES_TO_READ cap := by
          rw [List.length_cons]; omega
        refine ⟨?_, ?_⟩
        · show countWrites (processBytesSpec cap (stepSpec cap s b) rest).events = _
          rw [ihc, he, ht, countWrites_append, countWrites_gatePair, harith,
              Nat.add_div_right _ hN, Nat.zero_add]
          omega
        · show (processBytesSpec cap (stepSpec cap s b) rest).totalBytesRead = _
          rw [ihm, ht, harith, Nat.add_mod_right, Nat.zero_add]
      · have hnof : stepSpec cap s b = processByte cap s b := by
          unfold stepSpec
          exact frameGate_of_lt cap _ (by omega)
        obtain ⟨ihc, ihm⟩ := ih (stepSpec cap s b) (by rw [hnof, ht1]; omega)
        have harith : s.totalBytesRead + (b :: rest).length =
            s.totalBytesRead + 1 + rest.length := by
          rw [List.length_cons]; omega
        refine ⟨?_, ?_⟩
        · show countWrites (processBytesSpec cap (stepSpec cap s b) rest).events = _
          rw [ihc, hnof, hev1, ht1, harith]
        · show (processBytesSpec cap (stepSpec cap s b) rest).totalBytesRead = _
          rw [ihm, hnof, ht1, harith]

theorem frameAligned_nil_of_zero (chunks : List (List Nat)) :
    (∀ c ∈ chunks, c ≠ []) → frameAligned 0 0 chunks = true → chunks = [] := by
  cases chunks with
  | nil => intro _ _; rfl
  | cons c cs =>
      intro hne hal
      unfold frameAligned at hal
      rw [Bool.and_eq_true, decide_eq_true_eq] at hal
      have : c = [] := List.length_eq_zero.mp (by omega)
      exact absurd this (hne c (by simp))

theorem aligned_countWrites (cap : Nat) (chunks : List (List Nat))
    (hne : ∀ c ∈ chunks, c ≠ [])
    (hal : frameAligned (NUMBER_OF_BYTES_TO_READ cap) 0 chunks = true) :
    countWrites (processChunks cap (initialState cap) chunks).events =
      chunks.flatten.length / NUMBER_OF_BYTES_TO_READ cap := by
  by_cases hN : 0 < NUMBER_OF_BYTES_TO_READ cap
  · rw [aligned_run_eq_spec cap chunks (initialState cap) hne hal]
    have hcw := (spec_machine_counts cap chunks.flatten hN (initialState cap) hN).1
    rw [hcw]
    show 0 + (0 + chunks.flatten.length) / NUMBER_OF_BYTES_TO_READ cap = _
    rw [Nat.zero_add, Nat.zero_add]
  · have hzero : NUMBER_OF_BYTES_TO_READ cap = 0 := by omega
    rw [hzero] at hal
    rw [frameAligned_nil_of_zero chunks hne hal]
    rw [hzero]
    show (0 : Nat) = [].length / 0
    rw [List.length_nil]

theorem processByte_handoff (cap : Nat) (s : ClientState) (b : Nat)
    (h : s.ledIndex = 2) : (processByte cap s b).ledIndex = 0 := by
  unfold processByte
  rw [if_pos (by omega)]
  split
  · split <;> rfl
  · rfl

/-- C1 (counterexample): with stripCapacity = 2, the byte sequence 1..24
(total length 24 = 2 frames) split as chunks of 13 and 11 bytes produces
different Strip #1 contents, after the same full multiple of
`expectedBytesPerFrame` bytes is consumed, than the same sequence split as
two chunks of 12 bytes: strip contents do depend on chunk boundaries. -/
theorem C1_counterexample :
    ([[1, 2, 3, 4, 5, 6, 7, 8, 9, 10, 11, 12, 13],
      [14, 15, 16, 17, 18, 19, 20, 21, 22, 23, 24]] : List (List Nat)).flatten =
      ([[1, 2, 3, 4, 5, 6, 7, 8, 9, 10, 11, 12],
        [13, 14, 15, 16, 17, 18, 19, 20, 21, 22, 23, 24]] : List (List Nat)).flatten ∧
    ([[1, 2, 3, 4, 5, 6, 7, 8, 9, 10, 11, 12, 13],
      [14, 15, 16, 17, 18, 19, 20, 21, 22, 23, 24]] : List (List Nat)).flatten.length =
      2 * NUMBER_OF_BYTES_TO_READ 2 ∧
    (processChunks 2 (initialState 2)
        [[1, 2, 3, 4, 5, 6, 7, 8, 9, 10, 11, 12, 13],
         [14, 15, 16, 17, 18, 19, 20, 21, 22, 23, 24]]).leds1 ≠
      (processChunks 2 (initialState 2)
        [[1, 2, 3, 4, 5, 6, 7, 8, 9, 10, 11, 12],
         [13, 14, 15, 16, 17, 18, 19, 20, 21, 22, 23, 24]]).leds1 := by
  decide

/-- C1 (amended): for chunkings by nonempty chunks in which no chunk runs
past a frame boundary, the final decoder state — in particular both strip
contents — depends only on the flattened byte sequence, never on where the
chunk boundaries fall. -/
theorem C1_chunk_boundary_invariance (cap : Nat) (chunksA chunksB : List (List Nat))
    (hneA : ∀ c ∈ chunksA, c ≠ []) (hneB : ∀ c ∈ chunksB, c ≠ [])
    (halA : frameAligned (NUMBER_OF_BYTES_TO_READ cap) 0 chunksA = true)
    (halB : frameAligned (NUMBER_OF_BYTES_TO_READ cap) 0 chunksB = true)
    (hflat : chunksA.flatten = chunksB.flatten) :
    processChunks cap (initialState cap) chunksA =
      processChunks cap (initialState cap) chunksB := by
  rw [aligned_run_eq_spec cap chunksA (initialState cap) hneA halA,
      aligned_run_eq_spec cap chunksB (initialState cap) hneB halB, hflat]

theorem C1_chunk_boundary_invariance_witness :
    processChunks 2 (initialState 2) [[1, 2, 3, 4, 5, 6, 7, 8, 9, 10, 11, 12]] =
      processChunks 2 (initialState 2) [[1, 2, 3, 4, 5, 6], [7, 8, 9, 10, 11, 12]] :=
  C1_chunk_boundary_invariance 2
    [[1, 2, 3, 4, 5, 6, 7, 8, 9, 10, 11, 12]]
    [[1, 2, 3, 4, 5, 6], [7, 8, 9, 10, 11, 12]]
    (by decide) (by decide) (by decide) (by decide) (by decide)

/-- C2 (counterexample): with stripCapacity = 2, the chunking 13 + 11 bytes
consumes 24 bytes (= 2 frames) but emits only one acknowledgment byte
instead of 24 / expectedBytesPerFrame = 2. -/
theorem C2_counterexample :
    ([[1, 2, 3, 4, 5, 6, 7, 8, 9, 10, 11, 12, 13],
      [14, 15, 16, 17, 18, 19, 20, 21, 22, 23, 24]] : List (List Nat)).flatten.length =
      2 * NUMBER_OF_BYTES_TO_READ 2 ∧
    countWrites (processChunks 2 (initialState 2)
        [[1, 2, 3, 4, 5, 6, 7, 8, 9, 10, 11, 12, 13],
         [14, 15, 16, 17, 18, 19, 20, 21, 22, 23, 24]]).events = 1 ∧
    countWrites (processChunks 2 (initialState 2)
        [[1, 2, 3, 4, 5, 6, 7, 8, 9, 10, 11, 12, 13],
         [14, 15, 16, 17, 18, 19, 20, 21, 22, 23, 24]]).events ≠
      ([[1, 2, 3, 4, 5, 6, 7, 8, 9, 10, 11, 12, 13],
        [14, 15, 16, 17, 18, 19, 20, 21, 22, 23, 24]] : List (List Nat)).flatten.length /
        NUMBER_OF_BYTES_TO_READ 2 := by
  decide

/-- C2 (amended): the gate never fires early — the acknowledgment count
times `expectedBytesPerFrame` never exceeds the bytes consumed — and for
chunkings by nonempty chunks in which no chunk runs past a frame boundary,
exactly one acknowledgment byte is emitted per `expectedBytesPerFrame`
bytes consumed. -/
theorem C2_ack_per_frame (cap : Nat) (chunks : List (List Nat)) :
    countWrites (processChunks cap (initialState cap) chunks).events *
        NUMBER_OF_BYTES_TO_READ cap ≤ chunks.flatten.length ∧
    ((∀ c ∈ chunks, c ≠ []) →
      frameAligned (NUMBER_OF_BYTES_TO_READ cap) 0 chunks = true →
      countWrites (processChunks cap (initialState cap) chunks).events =
        chunks.flatten.length / NUMBER_OF_BYTES_TO_READ cap) := by
  constructor
  · have hb := processChunks_write_bound cap chunks (initialState cap)
    have h0 : countWrites (initialState cap).events = 0 := rfl
    have h1 : (initialState cap).totalBytesRead = 0 := rfl
    rw [h0, h1, Nat.zero_mul, Nat.zero_add] at hb
    omega
  · intro hne hal
    exact aligned_countWrites cap chunks hne hal

theorem C2_ack_per_frame_witness :
    countWrites (processChunks 2 (initialState 2)
        [[1, 2, 3, 4, 5, 6, 7, 8, 9, 10, 11, 12]]).events *
        NUMBER_OF_BYTES_TO_READ 2 ≤
      ([[1, 2, 3, 4, 5, 6, 7, 8, 9, 10, 11, 12]] : List (List Nat)).flatten.length ∧
    countWrites (processChunks 2 (initialState 2)
        [[1, 2, 3, 4, 5, 6, 7, 8, 9, 10, 11, 12]]).events =
      ([[1, 2, 3, 4, 5, 6, 7, 8, 9, 10, 11, 12]] : List (List Nat)).flatten.length /
        NUMBER_OF_BYTES_TO_READ 2 :=
  ⟨(C2_ack_per_frame 2 [[1, 2, 3, 4, 5, 6, 7, 8, 9, 10, 11, 12]]).1,
   (C2_ack_per_frame 2 [[1, 2, 3, 4, 5, 6, 7, 8, 9, 10, 11, 12]]).2 (by decide) (by decide)⟩

/-- C3: every run's event trace is a sequence of frame completions, each a
`FastLED.show()` immediately followed by one `Serial.write ACK_BYTE` — so an
acknowledgment is never emitted before its frame's display call — and
whenever a chunk fires the gate (the trace grows), that same gate appends
exactly the show/ack pair and resets `totalBytesRead` and `ledIndex` to 0. -/
theorem C3_gate_ordering (cap : Nat) (chunks p : List (List Nat)) (c : List Nat) :
    (∃ k, (processChunks cap (initialState cap) chunks).events = ackTrace k) ∧
    ((processChunk cap (processChunks cap (initialState cap) p) c).events ≠
        (processChunks cap (initialState cap) p).events →
      (processChunk cap (processChunks cap (initialState cap) p) c).events =
          (processChunks cap (initialState cap) p).events ++
            [SerialEvent.fastledShow, SerialEvent.serialWrite ACK_BYTE] ∧
        (processChunk cap (processChunks cap (initialState cap) p) c).totalBytesRead = 0 ∧
        (processChunk cap (processChunks cap (initialState cap) p) c).ledIndex = 0) := by
  constructor
  · exact processChunks_events_ackTrace cap chunks (initialState cap) ⟨0, rfl⟩
  · intro hne
    by_cases hg : NUMBER_OF_BYTES_TO_READ cap ≤
        (List.foldl (processByte cap) (processChunks cap (initialState cap) p) c).totalBytesRead
    · unfold processChunk
      rw [frameGate_of_ge cap _ hg]
      refine ⟨?_, rfl, rfl⟩
      dsimp only
      rw [foldl_processByte_events]
    · exfalso
      apply hne
      unfold processChunk
      rw [frameGate_of_lt cap _ (by omega), foldl_processByte_events]

theorem C3_gate_ordering_witness :
    (∃ k, (processChunks 2 (initialState 2)
        [[255, 0, 0, 0, 255, 0, 0, 0, 255, 128, 128, 128]]).events = ackTrace k) ∧
    ((processChunk 2 (processChunks 2 (initialState 2) [])
          [255, 0, 0, 0, 255, 0, 0, 0, 255, 128, 128, 128]).events =
        (processChunks 2 (initialState 2) []).events ++
          [SerialEvent.fastledShow, SerialEvent.serialWrite ACK_BYTE] ∧
      (processChunk 2 (processChunks 2 (initialState 2) [])
          [255, 0, 0, 0, 255, 0, 0, 0, 255, 128, 128, 128]).totalBytesRead = 0 ∧
      (processChunk 2 (processChunks 2 (initialState 2) [])
          [255, 0, 0, 0, 255, 0, 0, 0, 255, 128, 128, 128]).ledIndex = 0) :=
  ⟨(C3_gate_ordering 2 [[255, 0, 0, 0, 255, 0, 0, 0, 255, 128, 128, 128]] []
      [255, 0, 0, 0, 255, 0, 0, 0, 255, 128, 128, 128]).1,
   (C3_gate_ordering 2 [[255, 0, 0, 0, 255, 0, 0, 0, 255, 128, 128, 128]] []
      [255, 0, 0, 0, 255, 0, 0, 0, 255, 128, 128, 128]).2 (by decide)⟩

/-- C5: with stripCapacity = 2 (expectedBytesPerFrame = 12), the input
bytes 255,0,0, 0,255,0, 0,0,255, 128,128,128 fill Strip #1 with
(255,0,0),(0,255,0) and Strip #2 with (0,0,255),(128,128,128), produce
exactly one display call followed by exactly one acknowledgment byte, and
leave the byte counter and the partial-triplet index reset to 0. -/
theorem C5_concrete_frame :
    (processChunks 2 (initialState 2)
        [[255, 0, 0, 0, 255, 0, 0, 0, 255, 128, 128, 128]]).leds1 =
      [CRGB.mk 255 0 0, CRGB.mk 0 255 0] ∧
    (processChunks 2 (initialState 2)
        [[255, 0, 0, 0, 255, 0, 0, 0, 255, 128, 128, 128]]).leds2 =
      [CRGB.mk 0 0 255, CRGB.mk 128 128 128] ∧
    (processChunks 2 (initialState 2)
        [[255, 0, 0, 0, 255, 0, 0, 0, 255, 128, 128, 128]]).events =
      [SerialEvent.fastledShow, SerialEvent.serialWrite ACK_BYTE] ∧
    (processChunks 2 (initialState 2)
        [[255, 0, 0, 0, 255, 0, 0, 0, 255, 128, 128, 128]]).totalBytesRead = 0 ∧
    (processChunks 2 (initialState 2)
        [[255, 0, 0, 0, 255, 0, 0, 0, 255, 128, 128, 128]]).ledIndex = 0 := by
  decide

/-- C6: each consumed byte always counts toward frame completion; when the
completed triplet's `ledPosition` is at or beyond `TOTAL_LED_COUNT`, both
strips are left untouched; and any strip mutation is a single in-bounds
write at an index strictly below the strip capacity. -/
theorem C6_overrun_discard (cap : Nat) (s : ClientState) (b : Nat) :
    (processByte cap s b).totalBytesRead = s.totalBytesRead + 1 ∧
    (TOTAL_LED_COUNT cap ≤ s.totalBytesRead / 3 →
      (processByte cap s b).leds1 = s.leds1 ∧ (processByte cap s b).leds2 = s.leds2) ∧
    ((processByte cap s b).leds1 = s.leds1 ∨
      ∃ i px, i < cap ∧ (processByte cap s b).leds1 = s.leds1.set i px) ∧
    ((processByte cap s b).leds2 = s.leds2 ∨
      ∃ i px, i < cap ∧ (processByte cap s b).leds2 = s.leds2.set i px) := by
  refine ⟨processByte_totalBytesRead cap s b, processByte_leds_of_overrun cap s b, ?_⟩
  by_cases hfull : s.ledIndex + 1 = 3
  · by_cases hlt2 : s.totalBytesRead / 3 < TOTAL_LED_COUNT cap
    · by_cases hlt1 : s.totalBytesRead / 3 < cap
      · rw [processByte_full_strip1 cap s b (by omega) hlt1]
        exact ⟨Or.inr ⟨s.totalBytesRead / 3, _, hlt1, rfl⟩, Or.inl rfl⟩
      · rw [processByte_full_strip2 cap s b (by omega) (by omega) hlt2]
        refine ⟨Or.inl rfl, Or.inr ⟨s.totalBytesRead / 3 - cap, _, ?_, rfl⟩⟩
        unfold TOTAL_LED_COUNT at hlt2
        omega
    · rw [processByte_full_discard cap s b hfull (by omega)]
      exact ⟨Or.inl rfl, Or.inl rfl⟩
  · rw [processByte_notfull cap s b hfull]
    exact ⟨Or.inl rfl, Or.inl rfl⟩

theorem C6_overrun_discard_witness :
    (processByte 1 (ClientState.mk [CRGB.mk 0 0 0] [CRGB.mk 0 0 0] [7, 7, 0] 2 0 6 []) 5).leds1 =
      (ClientState.mk [CRGB.mk 0 0 0] [CRGB.mk 0 0 0] [7, 7, 0] 2 0 6 []).leds1 ∧
    (processByte 1 (ClientState.mk [CRGB.mk 0 0 0] [CRGB.mk 0 0 0] [7, 7, 0] 2 0 6 []) 5).leds2 =
      (ClientState.mk [CRGB.mk 0 0 0] [CRGB.mk 0 0 0] [7, 7, 0] 2 0 6 []).leds2 :=
  (C6_overrun_discard 1
    (ClientState.mk [CRGB.mk 0 0 0] [CRGB.mk 0 0 0] [7, 7, 0] 2 0 6 []) 5).2.1 (by decide)

/-- C7: between loop iterations — the observation points of the polled
state machine — the frame byte counter satisfies
`0 ≤ totalBytesRead ≤ NUMBER_OF_BYTES_TO_READ`, and whenever a chunk resets
it (the counter deviates from pure accumulation), that same gate appended
exactly one show/ack pair — the display fires with, and before, the single
per-frame reset. -/
theorem C7_counter_bound (cap : Nat) (p : List (List Nat)) (c : List Nat) :
    (processChunks cap (initialState cap) p).totalBytesRead ≤ NUMBER_OF_BYTES_TO_READ cap ∧
    ((processChunk cap (processChunks cap (initialState cap) p) c).totalBytesRead ≠
        (processChunks cap (initialState cap) p).totalBytesRead + c.length →
      (processChunk cap (processChunks cap (initialState cap) p) c).events =
          (processChunks cap (initialState cap) p).events ++
            [SerialEvent.fastledShow, SerialEvent.serialWrite ACK_BYTE] ∧
        (processChunk cap (processChunks cap (initialState cap) p) c).totalBytesRead = 0) := by
  constructor
  · apply processChunks_totalBytesRead_le
    exact Nat.zero_le _
  · intro hne
    by_cases hg : NUMBER_OF_BYTES_TO_READ cap ≤
        (List.foldl (processByte cap) (processChunks cap (initialState cap) p) c).totalBytesRead
    · unfold processChunk
      rw [frameGate_of_ge cap _ hg]
      refine ⟨?_, rfl⟩
      dsimp only
      rw [foldl_processByte_events]
    · exfalso
      apply hne
      unfold processChunk
      rw [frameGate_of_lt cap _ (by omega), foldl_processByte_totalBytesRead]

theorem C7_counter_bound_witness :
    (processChunks 2 (initialState 2) []).totalBytesRead ≤ NUMBER_OF_BYTES_TO_READ 2 ∧
    ((processChunk 2 (processChunks 2 (initialState 2) [])
          [1, 2, 3, 4, 5, 6, 7, 8, 9, 10, 11, 12]).events =
        (processChunks 2 (initialState 2) []).events ++
          [SerialEvent.fastledShow, SerialEvent.serialWrite ACK_BYTE] ∧
      (processChunk 2 (processChunks 2 (initialState 2) [])
          [1, 2, 3, 4, 5, 6, 7, 8, 9, 10, 11, 12]).totalBytesRead = 0) :=
  ⟨(C7_counter_bound 2 [] [1, 2, 3, 4, 5, 6, 7, 8, 9, 10, 11, 12]).1,
   (C7_counter_bound 2 [] [1, 2, 3, 4, 5, 6, 7, 8, 9, 10, 11, 12]).2 (by decide)⟩

/-- C9: when a single chunk runs past the end of the current frame, the
gate still fires exactly once, at the end of that chunk (one show/ack pair
appended), resets `totalBytesRead` and `ledIndex` to 0, and the strips end
up exactly as after the in-frame part of the chunk: the excess bytes are
consumed without being written to either strip or counted toward the next
frame. -/
theorem C9_overrun_chunk (cap : Nat) (s : ClientState) (c : List Nat)
    (hlt : s.totalBytesRead < NUMBER_OF_BYTES_TO_READ cap)
    (hover : NUMBER_OF_BYTES_TO_READ cap < s.totalBytesRead + c.length) :
    (processChunk cap s c).totalBytesRead = 0 ∧
    (processChunk cap s c).ledIndex = 0 ∧
    (processChunk cap s c).events =
      s.events ++ [SerialEvent.fastledShow, SerialEvent.serialWrite ACK_BYTE] ∧
    (processChunk cap s c).leds1 =
      (List.foldl (processByte cap) s
        (c.take (NUMBER_OF_BYTES_TO_READ cap - s.totalBytesRead))).leds1 ∧
    (processChunk cap s c).leds2 =
      (List.foldl (processByte cap) s
        (c.take (NUMBER_OF_BYTES_TO_READ cap - s.totalBytesRead))).leds2 := by
  have hsplit := List.take_append_drop (NUMBER_OF_BYTES_TO_READ cap - s.totalBytesRead) c
  have hfold : List.foldl (processByte cap) s c =
      List.foldl (processByte cap)
        (List.foldl (processByte cap) s
          (c.take (NUMBER_OF_BYTES_TO_READ cap - s.totalBytesRead)))
        (c.drop (NUMBER_OF_BYTES_TO_READ cap - s.totalBytesRead)) := by
    rw [← List.foldl_append, hsplit]
  have hlen : (c.take (NUMBER_OF_BYTES_TO_READ cap - s.totalBytesRead)).length =
      NUMBER_OF_BYTES_TO_READ cap - s.totalBytesRead := by
    rw [List.length_take]
    omega
  have hmidt : (List.foldl (processByte cap) s
      (c.take (NUMBER_OF_BYTES_TO_READ cap - s.totalBytesRead))).totalBytesRead =
      NUMBER_OF_BYTES_TO_READ cap := by
    rw [foldl_processByte_totalBytesRead, hlen]
    omega
  have hexcess := foldl_processByte_excess cap
    (c.drop (NUMBER_OF_BYTES_TO_READ cap - s.totalBytesRead))
    (List.foldl (processByte cap) s
      (c.take (NUMBER_OF_BYTES_TO_READ cap - s.totalBytesRead)))
    (by rw [hmidt])
  have hge : NUMBER_OF_BYTES_TO_READ cap ≤
      (List.foldl (processByte cap) s c).totalBytesRead := by
    rw [foldl_processByte_totalBytesRead]
    omega
  unfold processChunk
  rw [frameGate_of_ge cap _ hge]
  refine ⟨rfl, rfl, ?_, ?_, ?_⟩
  · dsimp only
    rw [foldl_processByte_events]
  · dsimp only
    rw [hfold]
    exact hexcess.1
  · dsimp only
    rw [hfold]
    exact hexcess.2

theorem C9_overrun_chunk_witness :
    (processChunk 2 (initialState 2)
        [1, 2, 3, 4, 5, 6, 7, 8, 9, 10, 11, 12, 13]).totalBytesRead = 0 ∧
    (processChunk 2 (initialState 2)
        [1, 2, 3, 4, 5, 6, 7, 8, 9, 10, 11, 12, 13]).ledIndex = 0 ∧
    (processChunk 2 (initialState 2)
        [1, 2, 3, 4, 5, 6, 7, 8, 9, 10, 11, 12, 13]).events =
      (initialState 2).events ++
        [SerialEvent.fastledShow, SerialEvent.serialWrite ACK_BYTE] ∧
    (processChunk 2 (initialState 2)
        [1, 2, 3, 4, 5, 6, 7, 8, 9, 10, 11, 12, 13]).leds1 =
      (List.foldl (processByte 2) (initialState 2)
        ([1, 2, 3, 4, 5, 6, 7, 8, 9, 10, 11, 12, 13].take
          (NUMBER_OF_BYTES_TO_READ 2 - (initialState 2).totalBytesRead))).leds1 ∧
    (processChunk 2 (initialState 2)
        [1, 2, 3, 4, 5, 6, 7, 8, 9, 10, 11, 12, 13]).leds2 =
      (List.foldl (processByte 2) (initialState 2)
        ([1, 2, 3, 4, 5, 6, 7, 8, 9, 10, 11, 12, 13].take
          (NUMBER_OF_BYTES_TO_READ 2 - (initialState 2).totalBytesRead))).leds2 :=
  C9_overrun_chunk 2 (initialState 2) [1, 2, 3, 4, 5, 6, 7, 8, 9, 10, 11, 12, 13]
    (by decide) (by decide)

/-- C10: every byte the firmware ever writes back on the transport is the
fixed acknowledgment value `ACK_BYTE = 0xAA`. -/
theorem C10_ack_value (cap : Nat) (chunks : List (List Nat)) (v : Nat)
    (hmem : SerialEvent.serialWrite v ∈
      (processChunks cap (initialState cap) chunks).events) :
    v = ACK_BYTE := by
  obtain ⟨k, hk⟩ := processChunks_events_ackTrace cap chunks (initialState cap) ⟨0, rfl⟩
  rw [hk] at hmem
  exact mem_ackTrace_write k v hmem

theorem C10_ack_value_witness : (170 : Nat) = ACK_BYTE :=
  C10_ack_value 2 [[1, 2, 3, 4, 5, 6, 7, 8, 9, 10, 11, 12]] 170 (by decide)

/-- C4: pixel routing is a pure function of the cumulative byte offset: for
a triplet starting at in-frame offset `o = totalBytesRead` (aligned,
`o % 3 = 0` and `o / 3` inside the frame), the triplet index is `o / 3` —
and sampling the routing offset at the third byte, as the code does, gives
the same value (`(o + 2) / 3 = o / 3`) — and the triplet `(r, g, b)` is
written to Strip #1 at index `o / 3` when `o / 3 < stripCapacity`, else to
Strip #2 at index `o / 3 − stripCapacity`. -/
theorem C4_routing (cap r g b : Nat) (s : ClientState)
    (hidx : s.ledIndex = 0) (hbuf : s.ledBuffer.length = 3)
    (hmod : s.totalBytesRead % 3 = 0)
    (hlt : s.totalBytesRead / 3 < TOTAL_LED_COUNT cap) :
    (s.totalBytesRead + 2) / 3 = s.totalBytesRead / 3 ∧
    (s.totalBytesRead / 3 < cap →
      (List.foldl (processByte cap) s [r, g, b]).leds1 =
        s.leds1.set (s.totalBytesRead / 3) (CRGB.mk r g b) ∧
      (List.foldl (processByte cap) s [r, g, b]).leds2 = s.leds2) ∧
    (cap ≤ s.totalBytesRead / 3 →
      (List.foldl (processByte cap) s [r, g, b]).leds1 = s.leds1 ∧
      (List.foldl (processByte cap) s [r, g, b]).leds2 =
        s.leds2.set (s.totalBytesRead / 3 - cap) (CRGB.mk r g b)) := by
  obtain ⟨x, y, z, hxyz⟩ := List.length_eq_three.mp hbuf
  have h1 : processByte cap s r =
      { s with ledBuffer := [r, y, z], ledIndex := 1,
               totalBytesRead := s.totalBytesRead + 1 } := by
    rw [processByte_notfull cap s r (by omega), hidx, hxyz]
    rfl
  have h2 : processByte cap
      { s with ledBuffer := [r, y, z], ledIndex := 1,
               totalBytesRead := s.totalBytesRead + 1 } g =
      { s with ledBuffer := [r, g, z], ledIndex := 2,
               totalBytesRead := s.totalBytesRead + 1 + 1 } := by
    rw [processByte_notfull cap
      { s with ledBuffer := [r, y, z], ledIndex := 1,
               totalBytesRead := s.totalBytesRead + 1 } g (of_decide_eq_true rfl)]
    rfl
  have e1 : List.foldl (processByte cap) s [r, g, b] =
      processByte cap (processByte cap (processByte cap s r) g) b := rfl
  have e2 : (s.totalBytesRead + 1 + 1) / 3 = s.totalBytesRead / 3 := by omega
  refine ⟨by omega, ?_, ?_⟩
  · intro hcap
    rw [e1, h1, h2, processByte_full_strip1 cap
      { s with ledBuffer := [r, g, z], ledIndex := 2,
               totalBytesRead := s.totalBytesRead + 1 + 1 } b rfl
      (show (s.totalBytesRead + 1 + 1) / 3 < cap by omega)]
    constructor
    · show s.leds1.set ((s.totalBytesRead + 1 + 1) / 3) (CRGB.mk r g b) =
        s.leds1.set (s.totalBytesRead / 3) (CRGB.mk r g b)
      rw [e2]
    · rfl
  · intro hcap
    rw [e1, h1, h2, processByte_full_strip2 cap
      { s with ledBuffer := [r, g, z], ledIndex := 2,
               totalBytesRead := s.totalBytesRead + 1 + 1 } b rfl
      (show cap ≤ (s.totalBytesRead + 1 + 1) / 3 by omega)
      (show (s.totalBytesRead + 1 + 1) / 3 < TOTAL_LED_COUNT cap by omega)]
    constructor
    · rfl
    · show s.leds2.set ((s.totalBytesRead + 1 + 1) / 3 - cap) (CRGB.mk r g b) =
        s.leds2.set (s.totalBytesRead / 3 - cap) (CRGB.mk r g b)
      rw [e2]

theorem C4_routing_witness :
    ((initialState 2).totalBytesRead + 2) / 3 = (initialState 2).totalBytesRead / 3 ∧
    ((initialState 2).totalBytesRead / 3 < 2 →
      (List.foldl (processByte 2) (initialState 2) [9, 8, 7]).leds1 =
        (initialState 2).leds1.set ((initialState 2).totalBytesRead / 3) (CRGB.mk 9 8 7) ∧
      (List.foldl (processByte 2) (initialState 2) [9, 8, 7]).leds2 =
        (initialState 2).leds2) ∧
    (2 ≤ (initialState 2).totalBytesRead / 3 →
      (List.foldl (processByte 2) (initialState 2) [9, 8, 7]).leds1 =
        (initialState 2).leds1 ∧
      (List.foldl (processByte 2) (initialState 2) [9, 8, 7]).leds2 =
        (initialState 2).leds2.set ((initialState 2).totalBytesRead / 3 - 2)
          (CRGB.mk 9 8 7)) :=
  C4_routing 2 9 8 7 (initialState 2) rfl rfl rfl (by decide)

/-- C8: at every state between processing one byte and the next — including
mid-chunk states — the partial-triplet index `ledIndex` is in {0, 1, 2};
when it stands at 2, the next byte completes the triplet, hands it to the
pixel router within that same step, and leaves `ledIndex` cleared to 0. -/
theorem C8_partial_triplet (cap : Nat) (p : List (List Nat)) (c : List Nat) (j b : Nat) :
    (List.foldl (processByte cap) (processChunks cap (initialState cap) p)
      (c.take j)).ledIndex < 3 ∧
    ((List.foldl (processByte cap) (processChunks cap (initialState cap) p)
        (c.take j)).ledIndex = 2 →
      (processByte cap
        (List.foldl (processByte cap) (processChunks cap (initialState cap) p)
          (c.take j)) b).ledIndex = 0) := by
  have hrun : (processChunks cap (initialState cap) p).ledIndex < 3 :=
    processChunks_ledIndex_lt cap p (initialState cap) (show (0 : Nat) < 3 by omega)
  refine ⟨foldl_processByte_ledIndex_lt cap (c.take j) _ hrun, ?_⟩
  intro h2
  exact processByte_handoff cap _ b h2

theorem C8_partial_triplet_witness :
    (List.foldl (processByte 2) (processChunks 2 (initialState 2) [])
      ([9, 9].take 2)).ledIndex < 3 ∧
    (processByte 2
      (List.foldl (processByte 2) (processChunks 2 (initialState 2) [])
        ([9, 9].take 2)) 7).ledIndex = 0 :=
  ⟨(C8_partial_triplet 2 [] [9, 9] 2 7).1,
   (C8_partial_triplet 2 [] [9, 9] 2 7).2 (by decide)⟩
